import Mathlib

/-!
Verification of the Clang-header generator (`lib/PrintAsClang/PrintAsClang.cpp`)
and the `InputFile` header (`include/swift/Frontend/InputFile.h`).

The C++ code is shallowly embedded: the output stream is modelled as the
string of bytes written so far, object identity of `ModuleDecl *` pointers is
modelled by a natural-number id, and the two externally supplied module
contents writers (`printModuleContentsAsObjC` / `printModuleContentsAsCxx`,
which live in `ModuleContentsWriter.cpp`, outside this fragment) are modelled
by passing their deterministic results in as explicit inputs.
-/

namespace SwiftModel

/-- Model of `swift::ModuleDecl`: `id` stands for object identity (the
pointer), `name` for `getName()` / `getNameStr()`. -/
structure ModuleDecl where
  id : Nat
  name : String
deriving DecidableEq, Repr

/-- Model of `ImportModuleTy = PointerUnion<ModuleDecl *, const clang::Module *>`
(PrintAsClang.h).  A Clang submodule is identified by its full qualified
path, stored here with the top-level component first.  (The C++ code stores
the path reversed, leaf first, via `ReverseFullNameIterator`, and then
compares it reversed once more — `rbegin`/`rend` — so the comparison runs
from the top-level component inward, exactly as on this forward path.) -/
inductive ImportModuleTy where
  | native (m : ModuleDecl)
  | foreign (path : List String)
deriving DecidableEq, Repr

/-- Lexicographic comparison of character lists, as `memcmp` on the UTF-8
bytes performs it (UTF-8 byte order coincides with scalar-value order). -/
def charListLt : List Char → List Char → Bool
  | _, [] => false
  | [], _ :: _ => true
  | a :: as, b :: bs => if a < b then true else if b < a then false else charListLt as bs

/-- Model of `llvm::StringRef::operator<`: byte-wise comparison. -/
def strLt (a b : String) : Bool := charListLt a.data b.data

/-- Model of `llvm::StringRef::compare`: -1, 0 or 1. -/
def strCompare (a b : String) : Int :=
  if strLt a b then -1 else if strLt b a then 1 else 0

/-- Model of `clang::Module::getTopLevelModuleName`: the first component of
the forward qualified path. -/
def topLevelName (p : List String) : String := p.headD ""

/-- Model of `std::lexicographical_compare` over path components
(PrintAsClang.cpp:193-196, applied to the doubly-reversed, i.e. forward,
paths). -/
def lexLt : List String → List String → Bool
  | _, [] => false
  | [], _ :: _ => true
  | a :: as, b :: bs => if strLt a b then true else if strLt b a then false else lexLt as bs

/-- Model of `compareImportModulesByName` (PrintAsClang.cpp:157-200).  The
`native`/`foreign` case inlines `-compareImportModulesByName(right, left)`
from line 163.  In release builds the function returns 1 from the
foreign/foreign branch when the asserted-distinct paths are equal; the model
keeps that behaviour. -/
def compareImportModulesByName : ImportModuleTy → ImportModuleTy → Int
  | .native l, .native r => strCompare l.name r.name
  | .native l, .foreign r => -(if strLt (topLevelName r) l.name then -1 else 1)
  | .foreign l, .native r => if strLt (topLevelName l) r.name then -1 else 1
  | .foreign l, .foreign r => if lexLt l r then -1 else 1

/-- The ordering relation induced by the comparator, as used by
`llvm::array_pod_sort`: left sorts no later than right. -/
def importRel (a b : ImportModuleTy) : Prop :=
  compareImportModulesByName a b ≤ 0

instance : DecidableRel importRel :=
  fun a b => Int.decLe (compareImportModulesByName a b) 0

/-- Model of the `isUnderlyingModule` lambda (PrintAsClang.cpp:217-224).
The parameter `importedHeaderModule` models the identity of
`ClangImporter::getImportedHeaderModule()` (`none` for null). -/
def isUnderlyingModule (M : ModuleDecl) (bridgingHeader : String)
    (importedHeaderModule : Option Nat) (imp : ModuleDecl) : Bool :=
  if bridgingHeader.isEmpty then
    decide (imp.id ≠ M.id) && decide (imp.name = M.name)
  else
    match importedHeaderModule with
    | none => false
    | some h => decide (imp.id = h)

/-- Modelled from the spec: `ModuleDecl::ReverseFullNameIterator::printForward`
is defined outside this fragment; per the spec's glossary the printed key is
"the full dotted/qualified name of a module or submodule". -/
def printForward (p : List String) : String := String.intercalate "." p

/-- The loop state of `writeImports` (PrintAsClang.cpp:226-246): bytes
written so far, the `seenImports` name set, and `includeUnderlying`. -/
structure ImportsOut where
  out : String
  seenImports : List String
  includeUnderlying : Bool
deriving DecidableEq, Repr

/-- One iteration of the loop over `sortedImports`
(PrintAsClang.cpp:229-246). -/
def importStep (M : ModuleDecl) (bridgingHeader : String)
    (importedHeaderModule : Option Nat) (st : ImportsOut) :
    ImportModuleTy → ImportsOut
  | .native m =>
    if isUnderlyingModule M bridgingHeader importedHeaderModule m then
      { st with includeUnderlying := true }
    else if m.name ∈ st.seenImports then st
    else
      { st with
        out := st.out ++ "@import " ++ m.name ++ ";\n",
        seenImports := m.name :: st.seenImports }
  | .foreign p =>
    { st with out := st.out ++ "@import " ++ printForward p ++ ";\n" }

/-- The initial loop state. -/
def initImportsOut : ImportsOut :=
  { out := "", seenImports := [], includeUnderlying := false }

/-- Model of `writeImports` (PrintAsClang.cpp:202-257).  `array_pod_sort`
with `compareImportModulesByName` is modelled by insertion sort with the
same comparator; the permutation-invariance theorem below shows that any
arrangement sorted by this comparator produces the same text, so the model
does not depend on the sorting algorithm. -/
def writeImports (imports : List ImportModuleTy) (M : ModuleDecl)
    (bridgingHeader : String) (importedHeaderModule : Option Nat) : String :=
  let sortedImports := List.insertionSort importRel imports
  let st := sortedImports.foldl
    (importStep M bridgingHeader importedHeaderModule) initImportsOut
  "#if __has_feature(modules)\n" ++
  "#if __has_warning(\"-Watimport-in-framework-header\")\n" ++
  "#pragma clang diagnostic ignored \"-Watimport-in-framework-header\"\n" ++
  "#endif\n" ++
  st.out ++
  "#endif\n\n" ++
  (if st.includeUnderlying then
    (if bridgingHeader.isEmpty then
      "#import <" ++ M.name ++ "/" ++ M.name ++ ".h>\n\n"
    else
      "#import \"" ++ bridgingHeader ++ "\"\n\n")
  else "")

/-- Model of `emitObjCConditional` (PrintAsClang.cpp:41-51); the optional
second argument is the `nonObjCCase` callback. -/
def emitObjCConditional (objcCase : String) (nonObjCCase : Option String) : String :=
  "#if defined(__OBJC__)\n" ++ objcCase ++
  (match nonObjCCase with
   | some c => "#else\n" ++ c
   | none => "") ++
  "#endif\n"

/-- Model of `emitCxxConditional` (PrintAsClang.cpp:29-39). -/
def emitCxxConditional (cxxCase : String) (cCase : Option String) : String :=
  "#if defined(__cplusplus)\n" ++ cxxCase ++
  (match cCase with
   | some c => "#else\n" ++ c
   | none => "") ++
  "#endif\n"

/-- Static inputs of the generator that come from outside this fragment:
the compiler version string (`version::getSwiftFullVersion`), the SIMD
typedef lines expanded from `SIMDMappedTypes.def`, the macro-table text
expanded from `ClangMacros.def` (both are external, versioned static
inputs per the spec), and the identity of the imported-header module. -/
structure PrintEnv where
  versionString : String
  simdTypedefs : String
  clangMacros : String
  importedHeaderModule : Option Nat
deriving Repr

/-- Model of `writePrologue` (PrintAsClang.cpp:53-155). -/
def writePrologue (env : PrintEnv) (macroGuard : String) : String :=
  "// Generated by " ++ env.versionString ++ "\n" ++
  "#ifndef " ++ macroGuard ++ "\n" ++
  "#define " ++ macroGuard ++ "\n" ++
  "#pragma clang diagnostic push\n" ++
  "#pragma clang diagnostic ignored \"-Wgcc-compat\"\n" ++
  "\n" ++
  "#if !defined(__has_include)\n" ++
  "# define __has_include(x) 0\n" ++
  "#endif\n" ++
  "#if !defined(__has_attribute)\n" ++
  "# define __has_attribute(x) 0\n" ++
  "#endif\n" ++
  "#if !defined(__has_feature)\n" ++
  "# define __has_feature(x) 0\n" ++
  "#endif\n" ++
  "#if !defined(__has_warning)\n" ++
  "# define __has_warning(x) 0\n" ++
  "#endif\n" ++
  "\n" ++
  "#if __has_include(<swift/objc-prologue.h>)\n" ++
  "# include <swift/objc-prologue.h>\n" ++
  "#endif\n" ++
  "\n" ++
  "#pragma clang diagnostic ignored \"-Wauto-import\"\n" ++
  emitObjCConditional "#include <Foundation/Foundation.h>\n" none ++
  emitCxxConditional
    ("#include <cstdint>\n" ++
     "#include <cstddef>\n" ++
     "#include <cstdbool>\n")
    (some ("#include <stdint.h>\n" ++
           "#include <stddef.h>\n" ++
           "#include <stdbool.h>\n")) ++
  "\n" ++
  "#if !defined(SWIFT_TYPEDEFS)\n" ++
  "# define SWIFT_TYPEDEFS 1\n" ++
  "# if __has_include(<uchar.h>)\n" ++
  "#  include <uchar.h>\n" ++
  "# elif !defined(__cplusplus)\n" ++
  "typedef uint_least16_t char16_t;\n" ++
  "typedef uint_least32_t char32_t;\n" ++
  "# endif\n" ++
  env.simdTypedefs ++
  "#endif\n" ++
  "\n" ++
  env.clangMacros

/-- Model of `writePostImportPrologue` (PrintAsClang.cpp:259-282). -/
def writePostImportPrologue (M : ModuleDecl) : String :=
  "#pragma clang diagnostic ignored \"-Wproperty-attribute-mismatch\"\n" ++
  "#pragma clang diagnostic ignored \"-Wduplicate-method-arg\"\n" ++
  "#if __has_warning(\"-Wpragma-clang-attribute\")\n" ++
  "# pragma clang diagnostic ignored \"-Wpragma-clang-attribute\"\n" ++
  "#endif\n" ++
  "#pragma clang diagnostic ignored \"-Wunknown-pragmas\"\n" ++
  "#pragma clang diagnostic ignored \"-Wnullability\"\n" ++
  "#pragma clang diagnostic ignored \"-Wdollar-in-identifier-extension\"\n" ++
  "\n" ++
  "#if __has_attribute(external_source_symbol)\n" ++
  "# pragma push_macro(\"any\")\n" ++
  "# undef any\n" ++
  "# pragma clang attribute push(__attribute__((external_source_symbol(language=\"Swift\", defined_in=\"" ++
  M.name ++
  "\",generated_declaration))), apply_to=any(function,enum,objc_interface,objc_category,objc_protocol))\n" ++
  "# pragma pop_macro(\"any\")\n" ++
  "#endif\n\n"

/-- Model of `writeEpilogue` (PrintAsClang.cpp:284-292). -/
def writeEpilogue : String :=
  "#if __has_attribute(external_source_symbol)\n" ++
  "# pragma clang attribute pop\n" ++
  "#endif\n" ++
  "#pragma clang diagnostic pop\n" ++
  "#endif\n"

/-- Model of `llvm::StringRef::upper`: per-character ASCII upper-casing
(`llvm::toUpper` char by char). -/
def strToUpper (s : String) : String := String.mk (s.data.map Char.toUpper)

/-- Model of `computeMacroGuard` (PrintAsClang.cpp:294-296). -/
def computeMacroGuard (M : ModuleDecl) : String :=
  strToUpper M.name ++ "_SWIFT_H"

/-- Model of `swift::printAsClangHeader` (PrintAsClang.cpp:306-329).
`imports` and `objcModuleContents` stand for what
`printModuleContentsAsObjC` put into the shared import accumulator and the
ObjC contents buffer; `cxxModuleContents` for the result of
`getModuleContentsCxxString` (both writers live outside this fragment and
are deterministic functions of the module).  The result pairs the C++
return value with the bytes written to `os`. -/
def printAsClangHeader (env : PrintEnv) (M : ModuleDecl)
    (bridgingHeader : String) (exposePublicDeclsInClangHeader : Bool)
    (imports : List ImportModuleTy)
    (objcModuleContents cxxModuleContents : String) : Bool × String :=
  let out :=
    writePrologue env (computeMacroGuard M) ++
    emitObjCConditional
      (writeImports imports M bridgingHeader env.importedHeaderModule) none ++
    writePostImportPrologue M ++
    emitObjCConditional objcModuleContents none ++
    emitCxxConditional
      (if exposePublicDeclsInClangHeader then cxxModuleContents else "") none ++
    writeEpilogue
  (false, out)

/-- Model of
`InputFile::convertBufferNameFromLLVM_getFileOrSTDIN_toSwiftConventions`
(InputFile.h:66-69). -/
def convertBufferNameFromLLVM_getFileOrSTDIN_toSwiftConventions
    (filename : String) : String :=
  if filename = "<stdin>" then "-" else filename

/-- Model of `swift::InputFile` (InputFile.h:33-76).  `Buffer` models the
`llvm::MemoryBuffer *` by its identity, `none` for null. -/
structure InputFile where
  Filename : String
  IsPrimary : Bool
  Buffer : Option Nat
  OutputFilename : String
deriving DecidableEq, Repr

/-- Model of the `InputFile` constructor (InputFile.h:48-55). -/
def InputFile.make (name : String) (isPrimary : Bool) (buffer : Option Nat)
    (outputFilename : String) : InputFile :=
  { Filename := convertBufferNameFromLLVM_getFileOrSTDIN_toSwiftConventions name,
    IsPrimary := isPrimary,
    Buffer := buffer,
    OutputFilename := outputFilename }

/-- Model of `InputFile::isPrimary`. -/
def InputFile.isPrimary (f : InputFile) : Bool := f.IsPrimary

/-- Model of `InputFile::buffer`. -/
def InputFile.buffer (f : InputFile) : Option Nat := f.Buffer

/-- Model of `InputFile::file`. -/
def InputFile.file (f : InputFile) : String := f.Filename

/-- Model of `InputFile::outputFilename`. -/
def InputFile.outputFilename (f : InputFile) : String := f.OutputFilename

/-- Renaming of pointer identities (for stating that output bytes do not
depend on pointer addresses): replace every module id by `f id`. -/
def renameModule (f : Nat → Nat) (m : ModuleDecl) : ModuleDecl :=
  { id := f m.id, name := m.name }

/-- Renaming of pointer identities on an import entry. -/
def renameImport (f : Nat → Nat) : ImportModuleTy → ImportModuleTy
  | .native m => .native (renameModule f m)
  | .foreign p => .foreign p

/-- Renaming of pointer identities on the environment. -/
def renameEnv (f : Nat → Nat) (env : PrintEnv) : PrintEnv :=
  { env with importedHeaderModule := env.importedHeaderModule.map f }

/-- The text of `writePrologue` after the generated-by comment and the two
guard lines (helper for stating where the guard sits in the output). -/
def prologueAfterGuard (env : PrintEnv) : String :=
  "#pragma clang diagnostic push\n" ++
  "#pragma clang diagnostic ignored \"-Wgcc-compat\"\n" ++
  "\n" ++
  "#if !defined(__has_include)\n" ++
  "# define __has_include(x) 0\n" ++
  "#endif\n" ++
  "#if !defined(__has_attribute)\n" ++
  "# define __has_attribute(x) 0\n" ++
  "#endif\n" ++
  "#if !defined(__has_feature)\n" ++
  "# define __has_feature(x) 0\n" ++
  "#endif\n" ++
  "#if !defined(__has_warning)\n" ++
  "# define __has_warning(x) 0\n" ++
  "#endif\n" ++
  "\n" ++
  "#if __has_include(<swift/objc-prologue.h>)\n" ++
  "# include <swift/objc-prologue.h>\n" ++
  "#endif\n" ++
  "\n" ++
  "#pragma clang diagnostic ignored \"-Wauto-import\"\n" ++
  emitObjCConditional "#include <Foundation/Foundation.h>\n" none ++
  emitCxxConditional
    ("#include <cstdint>\n" ++
     "#include <cstddef>\n" ++
     "#include <cstdbool>\n")
    (some ("#include <stdint.h>\n" ++
           "#include <stddef.h>\n" ++
           "#include <stdbool.h>\n")) ++
  "\n" ++
  "#if !defined(SWIFT_TYPEDEFS)\n" ++
  "# define SWIFT_TYPEDEFS 1\n" ++
  "# if __has_include(<uchar.h>)\n" ++
  "#  include <uchar.h>\n" ++
  "# elif !defined(__cplusplus)\n" ++
  "typedef uint_least16_t char16_t;\n" ++
  "typedef uint_least32_t char32_t;\n" ++
  "# endif\n" ++
  env.simdTypedefs ++
  "#endif\n" ++
  "\n" ++
  env.clangMacros

/-! Order-theoretic facts about the comparator. -/

theorem charListLt_iff_lex : ∀ (l m : List Char), charListLt l m = true ↔ List.Lex (· < ·) l m
  | l, [] => by cases l <;> simp [charListLt]
  | [], _ :: _ =>
    iff_of_true rfl List.Lex.nil
  | a :: as, b :: bs => by
    rcases lt_trichotomy a b with hab | hab | hab
    · exact iff_of_true (by simp [charListLt, hab]) (List.Lex.rel hab)
    · subst hab
      simp only [charListLt, if_neg (lt_irrefl a)]
      rw [charListLt_iff_lex as bs]
      exact (List.Lex.cons_iff).symm
    · simp only [charListLt, if_neg (lt_asymm hab), if_pos hab]
      apply iff_of_false (by simp)
      intro h
      cases h with
      | cons h2 => exact absurd hab (lt_irrefl _)
      | rel h2 => exact absurd h2 (lt_asymm hab)

theorem strLt_iff (a b : String) : strLt a b = true ↔ a < b := by
  rw [String.lt_iff_toList_lt]
  exact charListLt_iff_lex a.data b.data

theorem strLt_true {a b : String} (h : a < b) : strLt a b = true :=
  (strLt_iff a b).mpr h

theorem strLt_false {a b : String} (h : ¬ a < b) : strLt a b = false := by
  cases hb : strLt a b with
  | false => rfl
  | true => exact absurd ((strLt_iff a b).mp hb) h

theorem strCompare_le_zero {a b : String} : strCompare a b ≤ 0 ↔ a ≤ b := by
  unfold strCompare
  rcases lt_trichotomy a b with h | h | h
  · norm_num [strLt_true h, le_of_lt h]
  · subst h
    norm_num [strLt_false (lt_irrefl a)]
  · norm_num [strLt_false (lt_asymm h), strLt_true h, not_le.mpr h]

theorem strCompare_eq_zero {a b : String} : strCompare a b = 0 ↔ a = b := by
  unfold strCompare
  rcases lt_trichotomy a b with h | h | h
  · norm_num [strLt_true h, ne_of_lt h]
  · subst h
    norm_num [strLt_false (lt_irrefl a)]
  · norm_num [strLt_false (lt_asymm h), strLt_true h, ne_of_gt h]

theorem lexLt_iff_lex : ∀ (p q : List String), lexLt p q = true ↔ List.Lex (· < ·) p q
  | p, [] => by cases p <;> simp [lexLt]
  | [], _ :: _ =>
    iff_of_true rfl List.Lex.nil
  | a :: as, b :: bs => by
    rcases lt_trichotomy a b with hab | hab | hab
    · exact iff_of_true (by simp [lexLt, strLt_true hab]) (List.Lex.rel hab)
    · subst hab
      have hstep : lexLt (a :: as) (a :: bs) = lexLt as bs := by
        simp [lexLt, strLt_false (lt_irrefl a)]
      rw [hstep, lexLt_iff_lex as bs]
      exact (List.Lex.cons_iff).symm
    · have hstep : lexLt (a :: as) (b :: bs) = false := by
        simp [lexLt, strLt_false (lt_asymm hab), strLt_true hab]
      rw [hstep]
      apply iff_of_false (by simp)
      intro h
      cases h with
      | cons h2 => exact absurd hab (lt_irrefl _)
      | rel h2 => exact absurd h2 (lt_asymm hab)

theorem str_empty_le (s : String) : "" ≤ s := by
  rw [String.le_iff_toList_le]
  exact List.nil_le

theorem lex_head_le {p q : List String} (h : List.Lex (· < ·) p q) :
    topLevelName p ≤ topLevelName q := by
  cases p with
  | nil =>
    exact str_empty_le _
  | cons a as =>
    cases q with
    | nil => exact absurd h (List.Lex.not_nil_right _ _)
    | cons b bs =>
      cases h with
      | cons h2 => exact le_refl _
      | rel h2 => exact le_of_lt h2

theorem head_lt_lex {p q : List String} (h : topLevelName p < topLevelName q) :
    List.Lex (· < ·) p q := by
  cases q with
  | nil => exact absurd h (not_lt_of_ge (str_empty_le _))
  | cons b bs =>
    cases p with
    | nil => exact List.Lex.nil
    | cons a as => exact List.Lex.rel h

theorem importRel_native_native (l r : ModuleDecl) :
    importRel (.native l) (.native r) ↔ l.name ≤ r.name := by
  unfold importRel
  simp only [compareImportModulesByName]
  exact strCompare_le_zero

theorem importRel_native_foreign (n : ModuleDecl) (p : List String) :
    importRel (.native n) (.foreign p) ↔ n.name ≤ topLevelName p := by
  unfold importRel
  simp only [compareImportModulesByName]
  by_cases h : topLevelName p < n.name
  · norm_num [strLt_true h, not_le.mpr h]
  · norm_num [strLt_false h, le_of_not_lt h]

theorem importRel_foreign_native (p : List String) (n : ModuleDecl) :
    importRel (.foreign p) (.native n) ↔ topLevelName p < n.name := by
  unfold importRel
  simp only [compareImportModulesByName]
  by_cases h : topLevelName p < n.name
  · norm_num [strLt_true h, h]
  · norm_num [strLt_false h, h]

theorem importRel_foreign_foreign (p q : List String) :
    importRel (.foreign p) (.foreign q) ↔ List.Lex (· < ·) p q := by
  unfold importRel
  simp only [compareImportModulesByName]
  by_cases h : lexLt p q = true
  · rw [if_pos h]
    exact iff_of_true (by norm_num) ((lexLt_iff_lex p q).mp h)
  · rw [if_neg h]
    constructor
    · intro hle
      exact absurd hle (by norm_num)
    · intro hl
      exact ((h ((lexLt_iff_lex p q).mpr hl))).elim

theorem lex_trichotomy (p q : List String) :
    List.Lex (· < ·) p q ∨ p = q ∨ List.Lex (· < ·) q p :=
  trichotomous_of (List.Lex (· < ·)) p q

theorem importRel_antisymm_native {a b : ImportModuleTy}
    (h1 : importRel a b) (h2 : importRel b a) :
    ∃ ma mb : ModuleDecl, a = .native ma ∧ b = .native mb ∧ ma.name = mb.name := by
  cases a with
  | native ma =>
    cases b with
    | native mb =>
      exact ⟨ma, mb, rfl, rfl,
        le_antisymm ((importRel_native_native ma mb).mp h1)
          ((importRel_native_native mb ma).mp h2)⟩
    | foreign q =>
      exact absurd ((importRel_foreign_native q ma).mp h2)
        (not_lt.mpr ((importRel_native_foreign ma q).mp h1))
  | foreign p =>
    cases b with
    | native mb =>
      exact absurd ((importRel_foreign_native p mb).mp h1)
        (not_lt.mpr ((importRel_native_foreign mb p).mp h2))
    | foreign q =>
      exact absurd ((importRel_foreign_foreign q p).mp h2)
        (IsAsymm.asymm _ _ ((importRel_foreign_foreign p q).mp h1))

theorem importRel_trans {a b c : ImportModuleTy}
    (h1 : importRel a b) (h2 : importRel b c) : importRel a c := by
  cases a with
  | native ma =>
    cases b with
    | native mb =>
      cases c with
      | native mc =>
        rw [importRel_native_native] at h1 h2 ⊢
        exact le_trans h1 h2
      | foreign r =>
        rw [importRel_native_native] at h1
        rw [importRel_native_foreign] at h2 ⊢
        exact le_trans h1 h2
    | foreign q =>
      cases c with
      | native mc =>
        rw [importRel_native_foreign] at h1
        rw [importRel_foreign_native] at h2
        rw [importRel_native_native]
        exact le_of_lt (lt_of_le_of_lt h1 h2)
      | foreign r =>
        rw [importRel_native_foreign] at h1 ⊢
        rw [importRel_foreign_foreign] at h2
        exact le_trans h1 (lex_head_le h2)
  | foreign p =>
    cases b with
    | native mb =>
      cases c with
      | native mc =>
        rw [importRel_foreign_native] at h1 ⊢
        rw [importRel_native_native] at h2
        exact lt_of_lt_of_le h1 h2
      | foreign r =>
        rw [importRel_foreign_native] at h1
        rw [importRel_native_foreign] at h2
        rw [importRel_foreign_foreign]
        exact head_lt_lex (lt_of_lt_of_le h1 h2)
    | foreign q =>
      cases c with
      | native mc =>
        rw [importRel_foreign_foreign] at h1
        rw [importRel_foreign_native] at h2 ⊢
        exact lt_of_le_of_lt (lex_head_le h1) h2
      | foreign r =>
        rw [importRel_foreign_foreign] at h1 h2 ⊢
        exact IsTrans.trans _ _ _ h1 h2

theorem importRel_total_of_ne {a b : ImportModuleTy} (h : a ≠ b) :
    importRel a b ∨ importRel b a := by
  cases a with
  | native ma =>
    cases b with
    | native mb =>
      rcases le_total ma.name mb.name with hle | hle
      · exact Or.inl ((importRel_native_native _ _).mpr hle)
      · exact Or.inr ((importRel_native_native _ _).mpr hle)
    | foreign q =>
      rcases lt_or_le (topLevelName q) ma.name with hlt | hle
      · exact Or.inr ((importRel_foreign_native _ _).mpr hlt)
      · exact Or.inl ((importRel_native_foreign _ _).mpr hle)
  | foreign p =>
    cases b with
    | native mb =>
      rcases lt_or_le (topLevelName p) mb.name with hlt | hle
      · exact Or.inl ((importRel_foreign_native _ _).mpr hlt)
      · exact Or.inr ((importRel_native_foreign _ _).mpr hle)
    | foreign q =>
      rcases lex_trichotomy p q with hl | he | hl
      · exact Or.inl ((importRel_foreign_foreign _ _).mpr hl)
      · exact absurd (congrArg ImportModuleTy.foreign he) h
      · exact Or.inr ((importRel_foreign_foreign _ _).mpr hl)

/-! Sorting and permutation invariance of the import-emission loop. -/

theorem sorted_orderedInsert_total (a : ImportModuleTy) :
    ∀ (l : List ImportModuleTy), (∀ b ∈ l, importRel a b ∨ importRel b a) →
      l.Sorted importRel → (List.orderedInsert importRel a l).Sorted importRel := by
  intro l
  induction l with
  | nil =>
    intro _ _
    simp [List.orderedInsert]
  | cons b t ih =>
    intro htot hs
    rw [List.orderedInsert]
    by_cases hab : importRel a b
    · rw [if_pos hab, List.sorted_cons]
      refine ⟨?_, hs⟩
      intro x hx
      rcases List.mem_cons.mp hx with rfl | hxt
      · exact hab
      · exact importRel_trans hab ((List.sorted_cons.mp hs).1 x hxt)
    · rw [if_neg hab]
      have hba : importRel b a := by
        rcases htot b (List.mem_cons_self b t) with h | h
        · exact absurd h hab
        · exact h
      rw [List.sorted_cons]
      constructor
      · intro x hx
        rcases (List.mem_orderedInsert importRel).mp hx with rfl | hxt
        · exact hba
        · exact (List.sorted_cons.mp hs).1 x hxt
      · exact ih (fun c hc => htot c (List.mem_cons_of_mem b hc)) (List.sorted_cons.mp hs).2

theorem sorted_insertionSort_nodup :
    ∀ (l : List ImportModuleTy), l.Nodup → (List.insertionSort importRel l).Sorted importRel := by
  intro l
  induction l with
  | nil =>
    intro _
    simp
  | cons x t ih =>
    intro hnd
    rw [List.insertionSort]
    apply sorted_orderedInsert_total
    · intro b hb
      have hbt : b ∈ t := (List.perm_insertionSort importRel t).subset hb
      have hxb : x ≠ b := fun he => (List.nodup_cons.mp hnd).1 (he ▸ hbt)
      exact importRel_total_of_ne hxb
    · exact ih (List.nodup_cons.mp hnd).2

theorem importStep_comm (M : ModuleDecl) (bh : String) (ihm : Option Nat)
    (x y : ModuleDecl) (hxy : x.name = y.name) (st : ImportsOut) :
    importStep M bh ihm (importStep M bh ihm st (.native x)) (.native y) =
    importStep M bh ihm (importStep M bh ihm st (.native y)) (.native x) := by
  obtain ⟨o, s, f⟩ := st
  by_cases hx : isUnderlyingModule M bh ihm x = true <;>
    by_cases hy : isUnderlyingModule M bh ihm y = true <;>
    by_cases hm : x.name ∈ s <;>
    simp_all [importStep, ← hxy]

theorem foldl_importStep_move (M : ModuleDecl) (bh : String) (ihm : Option Nat)
    (ma : ModuleDecl) :
    ∀ (u : List ImportModuleTy),
      (∀ x ∈ u, ∃ mx : ModuleDecl, x = .native mx ∧ mx.name = ma.name) →
      ∀ (v : List ImportModuleTy) (st : ImportsOut),
        List.foldl (importStep M bh ihm) st (u ++ .native ma :: v) =
        List.foldl (importStep M bh ihm) st (.native ma :: (u ++ v)) := by
  intro u
  induction u with
  | nil =>
    intro _ v st
    rfl
  | cons x u ih =>
    intro hu v st
    obtain ⟨mx, rfl, hname⟩ := hu x (List.mem_cons_self x u)
    have hrest : ∀ y ∈ u, ∃ my : ModuleDecl, y = .native my ∧ my.name = ma.name :=
      fun y hy => hu y (List.mem_cons_of_mem _ hy)
    have h1 : List.foldl (importStep M bh ihm) st
          ((ImportModuleTy.native mx :: u) ++ ImportModuleTy.native ma :: v) =
        List.foldl (importStep M bh ihm)
          (importStep M bh ihm st (ImportModuleTy.native mx))
          (u ++ ImportModuleTy.native ma :: v) := rfl
    have h2 : List.foldl (importStep M bh ihm)
          (importStep M bh ihm st (ImportModuleTy.native mx))
          (ImportModuleTy.native ma :: (u ++ v)) =
        List.foldl (importStep M bh ihm)
          (importStep M bh ihm (importStep M bh ihm st (ImportModuleTy.native mx))
            (ImportModuleTy.native ma)) (u ++ v) := rfl
    have h3 : List.foldl (importStep M bh ihm) st
          (ImportModuleTy.native ma :: ((ImportModuleTy.native mx :: u) ++ v)) =
        List.foldl (importStep M bh ihm)
          (importStep M bh ihm (importStep M bh ihm st (ImportModuleTy.native ma))
            (ImportModuleTy.native mx)) (u ++ v) := rfl
    rw [h1, ih hrest v, h2, h3, importStep_comm M bh ihm mx ma hname]

theorem foldl_importStep_sorted_perm (M : ModuleDecl) (bh : String) (ihm : Option Nat) :
    ∀ (s1 s2 : List ImportModuleTy), List.Perm s1 s2 →
      s1.Sorted importRel → s2.Sorted importRel →
      ∀ st, s1.foldl (importStep M bh ihm) st = s2.foldl (importStep M bh ihm) st := by
  intro s1
  induction s1 with
  | nil =>
    intro s2 hp _ _ st
    rw [hp.symm.eq_nil]
  | cons a t1 ih =>
    intro s2 hp hs1 hs2 st
    have ha2 : a ∈ s2 := hp.subset (List.mem_cons_self a t1)
    obtain ⟨u, v, rfl⟩ := List.append_of_mem ha2
    have hua : ∀ x ∈ u, importRel x a := by
      have hpa := (List.pairwise_append.mp hs2).2.2
      exact fun x hx => hpa x hx a (List.mem_cons_self a v)
    have hax : ∀ x ∈ u, importRel a x := by
      intro x hx
      have hx2 : x ∈ a :: t1 := hp.symm.subset (List.mem_append.mpr (Or.inl hx))
      rcases List.mem_cons.mp hx2 with rfl | hxt
      · exact hua x hx
      · exact (List.sorted_cons.mp hs1).1 x hxt
    have key : ∀ x ∈ u, ∃ ma2 mx : ModuleDecl,
        a = .native ma2 ∧ x = .native mx ∧ ma2.name = mx.name :=
      fun x hx => importRel_antisymm_native (hax x hx) (hua x hx)
    cases u with
    | nil =>
      simp only [List.nil_append] at hp hs2 ⊢
      rw [List.foldl_cons, List.foldl_cons]
      exact ih v hp.cons_inv (List.sorted_cons.mp hs1).2 (List.sorted_cons.mp hs2).2 _
    | cons x0 u0 =>
      obtain ⟨ma2, mx0, ha_eq, hx0, hname0⟩ := key x0 (List.mem_cons_self x0 u0)
      subst ha_eq
      have hu_tied : ∀ x ∈ x0 :: u0, ∃ mx : ModuleDecl, x = .native mx ∧ mx.name = ma2.name := by
        intro x hx
        obtain ⟨ma3, mx, haeq3, hxeq, hnm⟩ := key x hx
        have hmeq : ma2 = ma3 := by
          injection haeq3
        exact ⟨mx, hxeq, by rw [hnm.symm, hmeq]⟩
      rw [foldl_importStep_move M bh ihm ma2 (x0 :: u0) hu_tied v st]
      rw [List.foldl_cons, List.foldl_cons]
      apply ih
      · exact (hp.trans List.perm_middle).cons_inv
      · exact (List.sorted_cons.mp hs1).2
      · exact List.Pairwise.sublist
          (List.Sublist.append_left (List.sublist_cons_self _ v) (x0 :: u0)) hs2

theorem writeImports_perm (l1 l2 : List ImportModuleTy) (hnd : l1.Nodup)
    (hp : List.Perm l1 l2) (M : ModuleDecl) (bh : String) (ihm : Option Nat) :
    writeImports l1 M bh ihm = writeImports l2 M bh ihm := by
  simp only [writeImports]
  have hfold : (List.insertionSort importRel l1).foldl (importStep M bh ihm) initImportsOut =
      (List.insertionSort importRel l2).foldl (importStep M bh ihm) initImportsOut := by
    apply foldl_importStep_sorted_perm
    · exact ((List.perm_insertionSort importRel l1).trans hp).trans
        (List.perm_insertionSort importRel l2).symm
    · exact sorted_insertionSort_nodup l1 hnd
    · exact sorted_insertionSort_nodup l2 (hp.nodup hnd)
  rw [hfold]

/-! Helper facts about the assembled output. -/

theorem printAsClangHeader_snd (env : PrintEnv) (M : ModuleDecl) (bh : String)
    (expose : Bool) (imports : List ImportModuleTy) (objc cxx : String) :
    (printAsClangHeader env M bh expose imports objc cxx).2 =
      writePrologue env (computeMacroGuard M) ++
      emitObjCConditional (writeImports imports M bh env.importedHeaderModule) none ++
      writePostImportPrologue M ++
      emitObjCConditional objc none ++
      emitCxxConditional (if expose then cxx else "") none ++
      writeEpilogue := rfl

theorem writePrologue_split (env : PrintEnv) (g : String) :
    writePrologue env g =
      "// Generated by " ++ env.versionString ++ "\n" ++
      "#ifndef " ++ g ++ "\n" ++
      "#define " ++ g ++ "\n" ++
      prologueAfterGuard env := by
  simp only [writePrologue, prologueAfterGuard, String.append_assoc]

theorem str_head_append (a b : String) (c : Char)
    (h : a.data.head? = some c) : (a ++ b).data.head? = some c := by
  rw [String.data_append]
  cases hd : a.data with
  | nil => rw [hd] at h; exact absurd h (by simp)
  | cons x xs =>
    rw [hd] at h
    simpa using h

theorem writePrologue_head (env : PrintEnv) (g : String) :
    (writePrologue env g).data.head? = some '/' := by
  unfold writePrologue
  repeat apply str_head_append
  decide

theorem importStep_seen_mono (M : ModuleDecl) (bh : String) (ihm : Option Nat)
    (st : ImportsOut) (a : ImportModuleTy) (n : String)
    (h : n ∈ st.seenImports) : n ∈ (importStep M bh ihm st a).seenImports := by
  cases a with
  | native m =>
    by_cases hu : isUnderlyingModule M bh ihm m = true
    · simpa [importStep, hu] using h
    · by_cases hm : m.name ∈ st.seenImports
      · simpa [importStep, hu, hm] using h
      · simp [importStep, hu, hm]
        exact Or.inr h
  | foreign p => simpa [importStep] using h

theorem foldl_includeUnderlying (M : ModuleDecl) (bh : String) (ihm : Option Nat) :
    ∀ (s : List ImportModuleTy) (st : ImportsOut),
      ((s.foldl (importStep M bh ihm) st).includeUnderlying = true ↔
        st.includeUnderlying = true ∨
          ∃ m : ModuleDecl, .native m ∈ s ∧ isUnderlyingModule M bh ihm m = true) := by
  intro s
  induction s with
  | nil =>
    intro st
    simp
  | cons a t ih =>
    intro st
    rw [List.foldl_cons, ih]
    have hstep : (importStep M bh ihm st a).includeUnderlying = true ↔
        (st.includeUnderlying = true ∨
          ∃ m : ModuleDecl, a = .native m ∧ isUnderlyingModule M bh ihm m = true) := by
      cases a with
      | native m =>
        by_cases hu : isUnderlyingModule M bh ihm m = true
        · simp [importStep, hu]
        · by_cases hm : m.name ∈ st.seenImports <;> simp [importStep, hu, hm]
      | foreign p => simp [importStep]
    rw [hstep]
    constructor
    · rintro ((hf | ⟨m, rfl, hm⟩) | ⟨m, hmem, hm⟩)
      · exact Or.inl hf
      · exact Or.inr ⟨m, List.mem_cons_self _ _, hm⟩
      · exact Or.inr ⟨m, List.mem_cons_of_mem _ hmem, hm⟩
    · rintro (hf | ⟨m, hmem, hm⟩)
      · exact Or.inl (Or.inl hf)
      · rcases List.mem_cons.mp hmem with heq | hmt
        · exact Or.inl (Or.inr ⟨m, heq.symm, hm⟩)
        · exact Or.inr ⟨m, hmt, hm⟩

theorem foldl_skip_dup (M : ModuleDecl) (bh : String) (ihm : Option Nat)
    (m2 : ModuleDecl) (hu2 : isUnderlyingModule M bh ihm m2 = false) :
    ∀ (s1 : List ImportModuleTy) (s2 : List ImportModuleTy) (st : ImportsOut),
      ((∃ m1 : ModuleDecl, .native m1 ∈ s1 ∧ m1.name = m2.name ∧
          isUnderlyingModule M bh ihm m1 = false) ∨ m2.name ∈ st.seenImports) →
      List.foldl (importStep M bh ihm) st (s1 ++ .native m2 :: s2) =
      List.foldl (importStep M bh ihm) st (s1 ++ s2) := by
  intro s1
  induction s1 with
  | nil =>
    intro s2 st hseen
    have hm : m2.name ∈ st.seenImports := by
      rcases hseen with ⟨m1, hmem, _⟩ | h
      · exact absurd hmem (List.not_mem_nil _)
      · exact h
    simp only [List.nil_append, List.foldl_cons]
    have hstep : importStep M bh ihm st (.native m2) = st := by
      simp [importStep, hu2, hm]
    rw [hstep]
  | cons x s1 ih =>
    intro s2 st hseen
    simp only [List.cons_append, List.foldl_cons]
    apply ih
    rcases hseen with ⟨m1, hmem, hname, hu1⟩ | h
    · rcases List.mem_cons.mp hmem with heq | hmt
      · subst heq
        by_cases hm : m1.name ∈ st.seenImports
        · right
          rw [← hname]
          exact importStep_seen_mono M bh ihm st _ _ hm
        · right
          rw [← hname]
          simp [importStep, hu1, hm]
      · exact Or.inl ⟨m1, hmt, hname, hu1⟩
    · exact Or.inr (importStep_seen_mono M bh ihm st _ _ h)

theorem mem_takeWhile_of_sorted {s : List ImportModuleTy} {a b : ImportModuleTy} :
    s.Sorted importRel → a ∈ s → importRel a b →
    a ∈ s.takeWhile (fun x => decide (importRel x b)) := by
  induction s with
  | nil =>
    intro _ ha _
    exact absurd ha (List.not_mem_nil _)
  | cons y t ih =>
    intro hs ha hab
    rcases List.mem_cons.mp ha with rfl | hat
    · rw [List.takeWhile_cons_of_pos (by simpa using hab)]
      exact List.mem_cons_self _ _
    · have hya : importRel y a := (List.sorted_cons.mp hs).1 a hat
      rw [List.takeWhile_cons_of_pos (by simpa using importRel_trans hya hab)]
      exact List.mem_cons_of_mem _ (ih (List.sorted_cons.mp hs).2 hat hab)

/-! Invariance under renaming of pointer identities. -/

theorem compare_rename (f : Nat → Nat) (a b : ImportModuleTy) :
    compareImportModulesByName (renameImport f a) (renameImport f b) =
    compareImportModulesByName a b := by
  cases a <;> cases b <;> rfl

theorem importRel_rename (f : Nat → Nat) (a b : ImportModuleTy) :
    importRel (renameImport f a) (renameImport f b) ↔ importRel a b := by
  unfold importRel
  rw [compare_rename]

theorem orderedInsert_map_rename (f : Nat → Nat) (a : ImportModuleTy) :
    ∀ (l : List ImportModuleTy),
      List.orderedInsert importRel (renameImport f a) (l.map (renameImport f)) =
      (List.orderedInsert importRel a l).map (renameImport f) := by
  intro l
  induction l with
  | nil => rfl
  | cons b t ih =>
    simp only [List.map_cons, List.orderedInsert]
    by_cases h : importRel a b
    · rw [if_pos ((importRel_rename f a b).mpr h), if_pos h]
      simp [List.map_cons]
    · rw [if_neg (fun hc => h ((importRel_rename f a b).mp hc)), if_neg h]
      simp only [List.map_cons]
      rw [ih]

theorem insertionSort_map_rename (f : Nat → Nat) :
    ∀ (l : List ImportModuleTy),
      List.insertionSort importRel (l.map (renameImport f)) =
      (List.insertionSort importRel l).map (renameImport f) := by
  intro l
  induction l with
  | nil => rfl
  | cons b t ih =>
    simp only [List.map_cons, List.insertionSort]
    rw [ih, orderedInsert_map_rename]

theorem isUnderlyingModule_rename (f : Nat → Nat) (hf : Function.Injective f)
    (M : ModuleDecl) (bh : String) (ihm : Option Nat) (m : ModuleDecl) :
    isUnderlyingModule (renameModule f M) bh (ihm.map f) (renameModule f m) =
    isUnderlyingModule M bh ihm m := by
  unfold isUnderlyingModule
  by_cases hb : bh.isEmpty = true
  · simp only [if_pos hb, renameModule]
    rw [decide_eq_decide.mpr hf.ne_iff]
  · simp only [if_neg hb, renameModule]
    cases ihm with
    | none => rfl
    | some h =>
      simp only [Option.map_some']
      rw [decide_eq_decide.mpr hf.eq_iff]

theorem importStep_rename (f : Nat → Nat) (hf : Function.Injective f)
    (M : ModuleDecl) (bh : String) (ihm : Option Nat) (st : ImportsOut)
    (a : ImportModuleTy) :
    importStep (renameModule f M) bh (ihm.map f) st (renameImport f a) =
    importStep M bh ihm st a := by
  cases a with
  | native m =>
    simp only [renameImport, importStep]
    rw [isUnderlyingModule_rename f hf M bh ihm m]
    simp only [renameModule]
  | foreign p => rfl

theorem foldl_importStep_rename (f : Nat → Nat) (hf : Function.Injective f)
    (M : ModuleDecl) (bh : String) (ihm : Option Nat) :
    ∀ (s : List ImportModuleTy) (st : ImportsOut),
      List.foldl (importStep (renameModule f M) bh (ihm.map f)) st
        (s.map (renameImport f)) =
      List.foldl (importStep M bh ihm) st s := by
  intro s
  induction s with
  | nil =>
    intro st
    rfl
  | cons a t ih =>
    intro st
    simp only [List.map_cons, List.foldl_cons, importStep_rename f hf, ih]

theorem writeImports_rename (f : Nat → Nat) (hf : Function.Injective f)
    (l : List ImportModuleTy) (M : ModuleDecl) (bh : String) (ihm : Option Nat) :
    writeImports (l.map (renameImport f)) (renameModule f M) bh (ihm.map f) =
    writeImports l M bh ihm := by
  simp only [writeImports, insertionSort_map_rename]
  rw [foldl_importStep_rename f hf]
  simp only [renameModule]

theorem strCompare_lt_zero {a b : String} : strCompare a b < 0 ↔ a < b := by
  unfold strCompare
  rcases lt_trichotomy a b with h | h | h
  · norm_num [strLt_true h, h]
  · subst h
    norm_num [strLt_false (lt_irrefl a), lt_irrefl a]
  · norm_num [strLt_false (lt_asymm h), strLt_true h, lt_asymm h]

theorem compare_foreign_foreign_lt (p q : List String) :
    compareImportModulesByName (.foreign p) (.foreign q) < 0 ↔ List.Lex (· < ·) p q := by
  simp only [compareImportModulesByName]
  by_cases h : lexLt p q = true
  · rw [if_pos h]
    exact iff_of_true (by norm_num) ((lexLt_iff_lex p q).mp h)
  · rw [if_neg h]
    exact iff_of_false (by norm_num) (fun hl => h ((lexLt_iff_lex p q).mpr hl))

theorem compare_foreign_native_lt (p : List String) (n : ModuleDecl) :
    compareImportModulesByName (.foreign p) (.native n) < 0 ↔ topLevelName p < n.name := by
  simp only [compareImportModulesByName]
  by_cases h : topLevelName p < n.name
  · rw [strLt_true h]
    exact iff_of_true (by norm_num) h
  · rw [strLt_false h]
    exact iff_of_false (by norm_num) h

theorem compare_native_foreign_lt (n : ModuleDecl) (p : List String) :
    compareImportModulesByName (.native n) (.foreign p) < 0 ↔ n.name ≤ topLevelName p := by
  simp only [compareImportModulesByName]
  by_cases h : topLevelName p < n.name
  · rw [strLt_true h]
    exact iff_of_false (by norm_num) (not_le.mpr h)
  · rw [strLt_false h]
    exact iff_of_true (by norm_num) (le_of_not_lt h)

/-! The claims. -/

/-- C1: header generation is deterministic.  The emitted bytes are invariant
under any reordering of the collected import set (so no byte depends on the
hash-set iteration order) and under any injective renaming of the pointer
identities of the module objects (so no byte depends on pointer addresses);
every other input held fixed, two invocations produce identical text. -/
theorem printAsClangHeader_deterministic :
    (∀ (env : PrintEnv) (M : ModuleDecl) (bh : String) (expose : Bool)
        (objc cxx : String) (l1 l2 : List ImportModuleTy),
      l1.Nodup → List.Perm l1 l2 →
      printAsClangHeader env M bh expose l1 objc cxx =
        printAsClangHeader env M bh expose l2 objc cxx) ∧
    (∀ (env : PrintEnv) (M : ModuleDecl) (bh : String) (expose : Bool)
        (objc cxx : String) (l : List ImportModuleTy) (f : Nat → Nat),
      Function.Injective f →
      printAsClangHeader (renameEnv f env) (renameModule f M) bh expose
          (l.map (renameImport f)) objc cxx =
        printAsClangHeader env M bh expose l objc cxx) := by
  constructor
  · intro env M bh expose objc cxx l1 l2 hnd hp
    simp only [printAsClangHeader]
    rw [writeImports_perm l1 l2 hnd hp M bh env.importedHeaderModule]
  · intro env M bh expose objc cxx l f hf
    simp only [printAsClangHeader]
    have h1 : writePrologue (renameEnv f env) (computeMacroGuard (renameModule f M)) =
        writePrologue env (computeMacroGuard M) := rfl
    have h2 : writePostImportPrologue (renameModule f M) = writePostImportPrologue M := rfl
    have h3 : (renameEnv f env).importedHeaderModule =
        env.importedHeaderModule.map f := rfl
    rw [h1, h2, h3, writeImports_rename f hf]

/-- Witness for C1 at concrete inputs. -/
theorem printAsClangHeader_deterministic_witness :
    (printAsClangHeader ⟨"V", "", "", none⟩ ⟨0, "Foo"⟩ "" false
        [.native ⟨1, "B"⟩, .native ⟨2, "A"⟩] "" "" =
      printAsClangHeader ⟨"V", "", "", none⟩ ⟨0, "Foo"⟩ "" false
        [.native ⟨2, "A"⟩, .native ⟨1, "B"⟩] "" "") ∧
    (printAsClangHeader (renameEnv Nat.succ ⟨"V", "", "", none⟩)
        (renameModule Nat.succ ⟨0, "Foo"⟩) "" false
        ([ImportModuleTy.native ⟨1, "B"⟩].map (renameImport Nat.succ)) "" "" =
      printAsClangHeader ⟨"V", "", "", none⟩ ⟨0, "Foo"⟩ "" false
        [.native ⟨1, "B"⟩] "" "") :=
  ⟨printAsClangHeader_deterministic.1 _ _ _ _ _ _ _ _ (by decide)
      (List.Perm.swap _ _ _),
   printAsClangHeader_deterministic.2 _ _ _ _ _ _ _ Nat.succ Nat.succ_injective⟩

set_option maxRecDepth 4000 in
/-- C2: import-block ordering.  Compiler-native modules order by name;
foreign submodule references order by their forward qualified path,
compared lexicographically component by component from the outermost
component inward; a foreign reference sorts before a native module exactly
when its top-level component name is below the native name (ties put the
native module first); and on the spec's concrete examples, native
references to B, A, C are emitted as A, B, C, and foreign `Alpha.Sub`
is emitted before native `Zeta`. -/
theorem import_ordering_spec :
    (∀ l r : ModuleDecl,
      compareImportModulesByName (.native l) (.native r) < 0 ↔ l.name < r.name) ∧
    (∀ p q : List String,
      compareImportModulesByName (.foreign p) (.foreign q) < 0 ↔
        List.Lex (· < ·) p q) ∧
    (∀ (p : List String) (n : ModuleDecl),
      compareImportModulesByName (.foreign p) (.native n) < 0 ↔
        topLevelName p < n.name) ∧
    (∀ (n : ModuleDecl) (p : List String),
      compareImportModulesByName (.native n) (.foreign p) < 0 ↔
        n.name ≤ topLevelName p) ∧
    writeImports [.native ⟨1, "B"⟩, .native ⟨2, "A"⟩, .native ⟨3, "C"⟩]
        ⟨0, "MyMod"⟩ "" none =
      "#if __has_feature(modules)\n#if __has_warning(\"-Watimport-in-framework-header\")\n#pragma clang diagnostic ignored \"-Watimport-in-framework-header\"\n#endif\n@import A;\n@import B;\n@import C;\n#endif\n\n" ∧
    writeImports [.native ⟨1, "Zeta"⟩, .foreign ["Alpha", "Sub"]]
        ⟨0, "MyMod"⟩ "" none =
      "#if __has_feature(modules)\n#if __has_warning(\"-Watimport-in-framework-header\")\n#pragma clang diagnostic ignored \"-Watimport-in-framework-header\"\n#endif\n@import Alpha.Sub;\n@import Zeta;\n#endif\n\n" := by
  refine ⟨?_, compare_foreign_foreign_lt, compare_foreign_native_lt,
    compare_native_foreign_lt, by decide, by decide⟩
  intro l r
  simp only [compareImportModulesByName]
  exact strCompare_lt_zero

/-- C6: conditional body suppression.  With expose-public-declarations
false, the `__cplusplus`-guarded block of the output is the bare pair of
guard markers with nothing between them; with the flag true, the C++
module contents appear between the same markers; everything before and
after the block is unchanged. -/
theorem cxx_body_suppression (env : PrintEnv) (M : ModuleDecl) (bh : String)
    (imports : List ImportModuleTy) (objc cxx : String) :
    ∃ pre : String,
      (printAsClangHeader env M bh false imports objc cxx).2 =
        pre ++ ("#if defined(__cplusplus)\n" ++ "#endif\n") ++ writeEpilogue ∧
      (printAsClangHeader env M bh true imports objc cxx).2 =
        pre ++ ("#if defined(__cplusplus)\n" ++ cxx ++ "#endif\n") ++ writeEpilogue := by
  refine ⟨writePrologue env (computeMacroGuard M) ++
    emitObjCConditional (writeImports imports M bh env.importedHeaderModule) none ++
    writePostImportPrologue M ++
    emitObjCConditional objc none, ?_, ?_⟩ <;>
  · rw [printAsClangHeader_snd]
    simp [emitCxxConditional, String.append_assoc]

/-- C7: the generator terminates on every input (it is a total function)
and its output is exactly the in-order concatenation of six blocks:
prologue, `__OBJC__`-guarded import block, post-import prologue
parameterized by the module name, `__OBJC__`-guarded Objective-C body,
`__cplusplus`-guarded C++ body, epilogue; nothing is ever rewound. -/
theorem printAsClangHeader_six_blocks (env : PrintEnv) (M : ModuleDecl)
    (bh : String) (expose : Bool) (imports : List ImportModuleTy)
    (objc cxx : String) :
    (printAsClangHeader env M bh expose imports objc cxx).2 =
      writePrologue env (computeMacroGuard M) ++
      ("#if defined(__OBJC__)\n" ++
        writeImports imports M bh env.importedHeaderModule ++ "#endif\n") ++
      writePostImportPrologue M ++
      ("#if defined(__OBJC__)\n" ++ objc ++ "#endif\n") ++
      ("#if defined(__cplusplus)\n" ++ (if expose then cxx else "") ++ "#endif\n") ++
      writeEpilogue := by
  rw [printAsClangHeader_snd]
  simp [emitObjCConditional, emitCxxConditional, String.append_assoc]

/-- C9: `printAsClangHeader` returns `false` (the no-error value) on every
input, and every invocation has written a complete header ending in the
epilogue: there is no recoverable failure path. -/
theorem printAsClangHeader_no_error_path (env : PrintEnv) (M : ModuleDecl)
    (bh : String) (expose : Bool) (imports : List ImportModuleTy)
    (objc cxx : String) :
    (printAsClangHeader env M bh expose imports objc cxx).1 = false ∧
    ∃ pre : String,
      (printAsClangHeader env M bh expose imports objc cxx).2 =
        pre ++ writeEpilogue :=
  ⟨rfl, _, rfl⟩

/-- C3 counterexample: the output does not open with the `#ifndef` guard
line — the first byte of the generated text is the slash of the
generated-by comment, not the hash of `#ifndef`. -/
theorem output_guard_not_first_line :
    ¬ ∃ rest : String,
      (printAsClangHeader ⟨"V", "", "", none⟩ ⟨0, "Foo"⟩ "" false [] "" "").2 =
        "#ifndef FOO_SWIFT_H" ++ rest := by
  intro hex
  obtain ⟨rest, hre⟩ := hex
  have h1 : ((printAsClangHeader ⟨"V", "", "", none⟩ ⟨0, "Foo"⟩ "" false [] "" "").2).data.head? =
      some '/' := by
    rw [printAsClangHeader_snd]
    apply str_head_append
    apply str_head_append
    apply str_head_append
    apply str_head_append
    apply str_head_append
    exact writePrologue_head _ _
  rw [hre] at h1
  have h2 : (("#ifndef FOO_SWIFT_H" ++ rest)).data.head? = some '#' := by
    apply str_head_append
    decide
  rw [h2] at h1
  exact absurd h1 (by decide)

/-- C3 (amended): the guard macro name is the upper-cased module name
concatenated with the suffix "_SWIFT_H" (for a module named foo it is
FOO_SWIFT_H); the output opens with the generated-by comment line
immediately followed by the `#ifndef <guard>` / `#define <guard>` lines;
and the output ends with a final `#endif` line, the one the epilogue
emits to close that guard. -/
theorem macro_guard_placement (env : PrintEnv) (M : ModuleDecl) (bh : String)
    (expose : Bool) (imports : List ImportModuleTy) (objc cxx : String) :
    computeMacroGuard M = strToUpper M.name ++ "_SWIFT_H" ∧
    computeMacroGuard ⟨0, "foo"⟩ = "FOO_SWIFT_H" ∧
    (printAsClangHeader env M bh expose imports objc cxx).2 =
      "// Generated by " ++ env.versionString ++ "\n" ++
      "#ifndef " ++ computeMacroGuard M ++ "\n" ++
      "#define " ++ computeMacroGuard M ++ "\n" ++
      (prologueAfterGuard env ++
        emitObjCConditional (writeImports imports M bh env.importedHeaderModule) none ++
        writePostImportPrologue M ++
        emitObjCConditional objc none ++
        emitCxxConditional (if expose then cxx else "") none ++
        writeEpilogue) ∧
    ∃ pre : String,
      (printAsClangHeader env M bh expose imports objc cxx).2 = pre ++ "\n#endif\n" := by
  refine ⟨rfl, by decide, ?_, ?_⟩
  · rw [printAsClangHeader_snd, writePrologue_split]
    simp [String.append_assoc]
  · refine ⟨writePrologue env (computeMacroGuard M) ++
      emitObjCConditional (writeImports imports M bh env.importedHeaderModule) none ++
      writePostImportPrologue M ++
      emitObjCConditional objc none ++
      emitCxxConditional (if expose then cxx else "") none ++
      "#if __has_attribute(external_source_symbol)\n" ++
      "# pragma clang attribute pop\n" ++
      "#endif\n" ++
      "#pragma clang diagnostic pop", ?_⟩
    rw [printAsClangHeader_snd]
    have hsplit : ("#pragma clang diagnostic pop\n" : String) ++ "#endif\n" =
        "#pragma clang diagnostic pop" ++ "\n#endif\n" := by decide
    simp only [writeEpilogue, String.append_assoc, hsplit]

/-- C8: equal-sort-key collisions are impossible outside the one benign
case: the comparator returns 0 exactly when both sides are native modules
with the same name; for foreign references with distinct paths it returns
a strict and mutually consistent before/after answer, and a native module
never compares equal to a foreign reference. -/
theorem comparator_never_ties :
    (∀ a b : ImportModuleTy, compareImportModulesByName a b = 0 ↔
      ∃ ma mb : ModuleDecl, a = .native ma ∧ b = .native mb ∧ ma.name = mb.name) ∧
    (∀ p q : List String, p ≠ q →
      (compareImportModulesByName (.foreign p) (.foreign q) = -1 ∧
        compareImportModulesByName (.foreign q) (.foreign p) = 1) ∨
      (compareImportModulesByName (.foreign p) (.foreign q) = 1 ∧
        compareImportModulesByName (.foreign q) (.foreign p) = -1)) := by
  constructor
  · intro a b
    cases a with
    | native ma =>
      cases b with
      | native mb =>
        simp only [compareImportModulesByName]
        rw [strCompare_eq_zero]
        constructor
        · intro h
          exact ⟨ma, mb, rfl, rfl, h⟩
        · rintro ⟨ma2, mb2, h1, h2, h3⟩
          injection h1 with h1
          injection h2 with h2
          rw [h1, h2]
          exact h3
      | foreign q =>
        simp only [compareImportModulesByName]
        constructor
        · intro h
          exfalso
          by_cases hc : strLt (topLevelName q) ma.name = true <;> simp [hc] at h
        · rintro ⟨ma2, mb2, _, h2, _⟩
          exact absurd h2 (by simp)
    | foreign p =>
      cases b with
      | native mb =>
        simp only [compareImportModulesByName]
        constructor
        · intro h
          exfalso
          by_cases hc : strLt (topLevelName p) mb.name = true <;> simp [hc] at h
        · rintro ⟨ma2, mb2, h1, _, _⟩
          exact absurd h1 (by simp)
      | foreign q =>
        simp only [compareImportModulesByName]
        constructor
        · intro h
          exfalso
          by_cases hc : lexLt p q = true <;> simp [hc] at h
        · rintro ⟨ma2, mb2, h1, _, _⟩
          exact absurd h1 (by simp)
  · intro p q hne
    rcases lex_trichotomy p q with hl | he | hl
    · left
      constructor
      · simp only [compareImportModulesByName]
        rw [if_pos ((lexLt_iff_lex p q).mpr hl)]
      · simp only [compareImportModulesByName]
        rw [if_neg (fun hc => IsAsymm.asymm _ _ hl ((lexLt_iff_lex q p).mp hc))]
    · exact absurd he hne
    · right
      constructor
      · simp only [compareImportModulesByName]
        rw [if_neg (fun hc => IsAsymm.asymm _ _ hl ((lexLt_iff_lex p q).mp hc))]
      · simp only [compareImportModulesByName]
        rw [if_pos ((lexLt_iff_lex q p).mpr hl)]

/-- Witness for C8 at concrete distinct foreign paths. -/
theorem comparator_never_ties_witness :
    (compareImportModulesByName (.foreign ["Alpha", "Sub"]) (.foreign ["Beta"]) = -1 ∧
      compareImportModulesByName (.foreign ["Beta"]) (.foreign ["Alpha", "Sub"]) = 1) ∨
    (compareImportModulesByName (.foreign ["Alpha", "Sub"]) (.foreign ["Beta"]) = 1 ∧
      compareImportModulesByName (.foreign ["Beta"]) (.foreign ["Alpha", "Sub"]) = -1) :=
  comparator_never_ties.2 ["Alpha", "Sub"] ["Beta"] (by decide)

/-- C10: an `InputFile` built from a non-empty name reports `file()` as
"-" exactly when the name is "&lt;stdin&gt;" and as the unchanged name
otherwise, and `isPrimary()`, `buffer()` and `outputFilename()` return
the constructor arguments unchanged. -/
theorem inputFile_accessors (name : String) (primary : Bool)
    (buffer : Option Nat) (outFile : String) (hname : name ≠ "") :
    (InputFile.make name primary buffer outFile).file =
      (if name = "<stdin>" then "-" else name) ∧
    (InputFile.make name primary buffer outFile).isPrimary = primary ∧
    (InputFile.make name primary buffer outFile).buffer = buffer ∧
    (InputFile.make name primary buffer outFile).outputFilename = outFile :=
  ⟨rfl, rfl, rfl, rfl⟩

/-- Witness for C10: the stdin spelling is rewritten to "-", an ordinary
file name is kept unchanged. -/
theorem inputFile_accessors_witness :
    (InputFile.make "<stdin>" true (some 5) "out.o").file = "-" ∧
    (InputFile.make "main.swift" false none "main.o").file = "main.swift" :=
  ⟨(inputFile_accessors "<stdin>" true (some 5) "out.o" (by decide)).1.trans (by decide),
   (inputFile_accessors "main.swift" false none "main.o" (by decide)).1.trans (by decide)⟩

theorem dropWhile_head_false {α : Type} (p : α → Bool) :
    ∀ (l : List α) (y : α) (t : List α), l.dropWhile p = y :: t → p y = false := by
  intro l
  induction l with
  | nil =>
    intro y t h
    exact absurd h (by simp)
  | cons x xs ih =>
    intro y t h
    by_cases hx : p x = true
    · rw [List.dropWhile_cons_of_pos hx] at h
      exact ih y t h
    · rw [List.dropWhile_cons_of_neg hx] at h
      injection h with h1 _
      rw [← h1]
      exact Bool.eq_false_iff.mpr hx

/-- C4: self-reference collapse.  Processing an entry for the module's own
underlying compatibility counterpart appends no `@import` text — it only
raises the `includeUnderlying` flag; when the import set contains such a
counterpart, the emitted text is the import block followed by exactly one
include statement, `#import "<bridgingHeader>"` for a non-empty override
and `#import <Name/Name.h>` otherwise; when it contains none, nothing
follows the import block. -/
theorem underlying_module_collapse (l : List ImportModuleTy) (M : ModuleDecl)
    (bh : String) (ihm : Option Nat) :
    (∀ (st : ImportsOut) (m : ModuleDecl), isUnderlyingModule M bh ihm m = true →
      importStep M bh ihm st (.native m) = { st with includeUnderlying := true }) ∧
    ((∃ m : ModuleDecl, .native m ∈ l ∧ isUnderlyingModule M bh ihm m = true) →
      writeImports l M bh ihm =
        "#if __has_feature(modules)\n" ++
        "#if __has_warning(\"-Watimport-in-framework-header\")\n" ++
        "#pragma clang diagnostic ignored \"-Watimport-in-framework-header\"\n" ++
        "#endif\n" ++
        ((List.insertionSort importRel l).foldl (importStep M bh ihm) initImportsOut).out ++
        "#endif\n\n" ++
        (if bh.isEmpty then
          "#import <" ++ M.name ++ "/" ++ M.name ++ ".h>\n\n"
        else
          "#import \"" ++ bh ++ "\"\n\n")) ∧
    ((¬ ∃ m : ModuleDecl, .native m ∈ l ∧ isUnderlyingModule M bh ihm m = true) →
      writeImports l M bh ihm =
        "#if __has_feature(modules)\n" ++
        "#if __has_warning(\"-Watimport-in-framework-header\")\n" ++
        "#pragma clang diagnostic ignored \"-Watimport-in-framework-header\"\n" ++
        "#endif\n" ++
        ((List.insertionSort importRel l).foldl (importStep M bh ihm) initImportsOut).out ++
        "#endif\n\n") := by
  refine ⟨?_, ?_, ?_⟩
  · intro st m h
    simp [importStep, h]
  · intro hex
    obtain ⟨m, hmem, hu⟩ := hex
    simp only [writeImports]
    have hflag : ((List.insertionSort importRel l).foldl
        (importStep M bh ihm) initImportsOut).includeUnderlying = true := by
      rw [foldl_includeUnderlying]
      exact Or.inr ⟨m, (List.perm_insertionSort importRel l).mem_iff.mpr hmem, hu⟩
    rw [if_pos hflag]
  · intro hnex
    simp only [writeImports]
    have hflag : ¬ ((List.insertionSort importRel l).foldl
        (importStep M bh ihm) initImportsOut).includeUnderlying = true := by
      rw [foldl_includeUnderlying]
      rintro (hf | ⟨m, hmem, hu⟩)
      · exact absurd hf (by simp [initImportsOut])
      · exact hnex ⟨m, (List.perm_insertionSort importRel l).mem_iff.mp hmem, hu⟩
    rw [if_neg hflag, String.append_empty]

set_option maxRecDepth 4000 in
/-- Witness for C4: with the underlying counterpart present the single
conventional include is emitted and no import line for it; with no
counterpart present nothing follows the import block. -/
theorem underlying_module_collapse_witness :
    writeImports [.native ⟨1, "Foo"⟩] ⟨0, "Foo"⟩ "" none =
      "#if __has_feature(modules)\n#if __has_warning(\"-Watimport-in-framework-header\")\n#pragma clang diagnostic ignored \"-Watimport-in-framework-header\"\n#endif\n#endif\n\n#import <Foo/Foo.h>\n\n" ∧
    writeImports [.native ⟨1, "A"⟩] ⟨0, "Foo"⟩ "" none =
      "#if __has_feature(modules)\n#if __has_warning(\"-Watimport-in-framework-header\")\n#pragma clang diagnostic ignored \"-Watimport-in-framework-header\"\n#endif\n@import A;\n#endif\n\n" :=
  ⟨((underlying_module_collapse [.native ⟨1, "Foo"⟩] ⟨0, "Foo"⟩ "" none).2.1
      ⟨⟨1, "Foo"⟩, by decide, by decide⟩).trans (by decide),
   ((underlying_module_collapse [.native ⟨1, "A"⟩] ⟨0, "Foo"⟩ "" none).2.2
      (fun hex => by
        obtain ⟨m, hm, hu⟩ := hex
        have hmeq : m = ⟨1, "A"⟩ := by simpa using hm
        subst hmeq
        exact absurd hu (by decide))).trans (by decide)⟩

theorem perm_takeWhile_insert (a : ImportModuleTy) (p : ImportModuleTy → Bool)
    (s : List ImportModuleTy) :
    List.Perm (s.takeWhile p ++ a :: s.dropWhile p) (a :: s) := by
  have h : List.Perm (s.takeWhile p ++ a :: s.dropWhile p)
      (a :: (s.takeWhile p ++ s.dropWhile p)) := List.perm_middle
  rw [List.takeWhile_append_dropWhile p s] at h
  exact h

theorem sorted_takeWhile_insert (m2 : ModuleDecl) {s : List ImportModuleTy}
    (hs : s.Sorted importRel) (hm2 : ImportModuleTy.native m2 ∉ s) :
    (s.takeWhile (fun x => decide (importRel x (ImportModuleTy.native m2))) ++
      ImportModuleTy.native m2 ::
        s.dropWhile (fun x => decide (importRel x (ImportModuleTy.native m2)))).Sorted
      importRel := by
  have htake_rel : ∀ x ∈ s.takeWhile (fun x => decide (importRel x (ImportModuleTy.native m2))),
      importRel x (ImportModuleTy.native m2) := by
    intro x hx
    simpa using List.mem_takeWhile_imp hx
  have hdrop_rel : ∀ y ∈ s.dropWhile (fun x => decide (importRel x (ImportModuleTy.native m2))),
      importRel (ImportModuleTy.native m2) y := by
    cases hdrop : s.dropWhile (fun x => decide (importRel x (ImportModuleTy.native m2))) with
    | nil =>
      intro y hy
      exact absurd hy (List.not_mem_nil _)
    | cons y0 t0 =>
      have hy0pred : decide (importRel y0 (ImportModuleTy.native m2)) = false := by
        simpa using dropWhile_head_false _ s y0 t0 hdrop
      have hy0not : ¬ importRel y0 (ImportModuleTy.native m2) := of_decide_eq_false hy0pred
      have hy0mem : y0 ∈ s := by
        apply (List.dropWhile_sublist _).subset
        rw [hdrop]
        exact List.mem_cons_self _ _
      have hy0ne : y0 ≠ ImportModuleTy.native m2 := by
        intro he
        rw [he] at hy0mem
        exact hm2 hy0mem
      have hm2y0 : importRel (ImportModuleTy.native m2) y0 := by
        rcases importRel_total_of_ne hy0ne with h | h
        · exact absurd h hy0not
        · exact h
      have hdrop_sorted : (y0 :: t0).Sorted importRel := by
        rw [← hdrop]
        exact List.Pairwise.sublist (List.dropWhile_sublist _) hs
      intro y hy
      rcases List.mem_cons.mp hy with rfl | hyt
      · exact hm2y0
      · exact importRel_trans hm2y0 ((List.sorted_cons.mp hdrop_sorted).1 y hyt)
  apply List.pairwise_append.mpr
  refine ⟨List.Pairwise.sublist (List.takeWhile_sublist _) hs, ?_, ?_⟩
  · rw [List.pairwise_cons]
    exact ⟨hdrop_rel, List.Pairwise.sublist (List.dropWhile_sublist _) hs⟩
  · intro x hx y hy
    rcases List.mem_cons.mp hy with rfl | hyd
    · exact htake_rel x hx
    · exact importRel_trans (htake_rel x hx) (hdrop_rel y hyd)

/-- C5: import emission is deduplicated by canonical name: two distinct
compiler-native references with the same name produce at most one
`@import` line — appending a further reference whose name is already
imported leaves the emitted text byte-identical. -/
theorem import_dedup_by_name (l : List ImportModuleTy) (M : ModuleDecl)
    (bh : String) (ihm : Option Nat) (m1 m2 : ModuleDecl)
    (hnd : (l ++ [ImportModuleTy.native m2]).Nodup)
    (hm1 : ImportModuleTy.native m1 ∈ l)
    (hname : m1.name = m2.name)
    (hu1 : isUnderlyingModule M bh ihm m1 = false)
    (hu2 : isUnderlyingModule M bh ihm m2 = false) :
    writeImports (l ++ [ImportModuleTy.native m2]) M bh ihm =
      writeImports l M bh ihm := by
  have hl : l.Nodup := (List.nodup_append.mp hnd).1
  have hm2notl : ImportModuleTy.native m2 ∉ l := by
    intro hc
    exact (List.nodup_append.mp hnd).2.2 hc (List.mem_singleton_self _)
  have hsorted : (List.insertionSort importRel l).Sorted importRel :=
    sorted_insertionSort_nodup l hl
  have hm2nots : ImportModuleTy.native m2 ∉ List.insertionSort importRel l := by
    intro hc
    exact hm2notl ((List.perm_insertionSort importRel l).mem_iff.mp hc)
  have hm1s : ImportModuleTy.native m1 ∈ List.insertionSort importRel l :=
    (List.perm_insertionSort importRel l).mem_iff.mpr hm1
  have hrel12 : importRel (.native m1) (.native m2) :=
    (importRel_native_native m1 m2).mpr (le_of_eq hname)
  have hm1take : ImportModuleTy.native m1 ∈
      (List.insertionSort importRel l).takeWhile
        (fun x => decide (importRel x (ImportModuleTy.native m2))) :=
    mem_takeWhile_of_sorted hsorted hm1s hrel12
  have hperm : List.Perm
      (List.insertionSort importRel (l ++ [ImportModuleTy.native m2]))
      ((List.insertionSort importRel l).takeWhile
          (fun x => decide (importRel x (ImportModuleTy.native m2))) ++
        ImportModuleTy.native m2 ::
          (List.insertionSort importRel l).dropWhile
            (fun x => decide (importRel x (ImportModuleTy.native m2)))) := by
    have h1 : List.Perm
        (List.insertionSort importRel (l ++ [ImportModuleTy.native m2]))
        (l ++ [ImportModuleTy.native m2]) := List.perm_insertionSort _ _
    have h2 : List.Perm (l ++ [ImportModuleTy.native m2])
        (ImportModuleTy.native m2 :: l) := List.perm_append_singleton _ _
    have h3 : List.Perm (ImportModuleTy.native m2 :: l)
        (ImportModuleTy.native m2 :: List.insertionSort importRel l) :=
      ((List.perm_insertionSort importRel l).symm).cons _
    have h4 := (perm_takeWhile_insert (ImportModuleTy.native m2)
      (fun x => decide (importRel x (ImportModuleTy.native m2)))
      (List.insertionSort importRel l)).symm
    exact ((h1.trans h2).trans h3).trans h4
  have hsortA : (List.insertionSort importRel
      (l ++ [ImportModuleTy.native m2])).Sorted importRel :=
    sorted_insertionSort_nodup _ hnd
  have hfold1 := foldl_importStep_sorted_perm M bh ihm _ _ hperm hsortA
    (sorted_takeWhile_insert m2 hsorted hm2nots) initImportsOut
  have hfold2 := foldl_skip_dup M bh ihm m2 hu2
    ((List.insertionSort importRel l).takeWhile
      (fun x => decide (importRel x (ImportModuleTy.native m2))))
    ((List.insertionSort importRel l).dropWhile
      (fun x => decide (importRel x (ImportModuleTy.native m2))))
    initImportsOut (Or.inl ⟨m1, hm1take, hname, hu1⟩)
  have hfold : List.foldl (importStep M bh ihm) initImportsOut
      (List.insertionSort importRel (l ++ [ImportModuleTy.native m2])) =
    List.foldl (importStep M bh ihm) initImportsOut
      (List.insertionSort importRel l) := by
    rw [hfold1, hfold2, List.takeWhile_append_dropWhile]
  simp only [writeImports]
  rw [hfold]

set_option maxRecDepth 4000 in
/-- Witness for C5: a second native reference named Foo adds nothing to
the emitted text. -/
theorem import_dedup_by_name_witness :
    writeImports [ImportModuleTy.native ⟨1, "Foo"⟩, ImportModuleTy.native ⟨2, "Foo"⟩]
        ⟨0, "Bar"⟩ "" none =
      writeImports [ImportModuleTy.native ⟨1, "Foo"⟩] ⟨0, "Bar"⟩ "" none :=
  import_dedup_by_name [ImportModuleTy.native ⟨1, "Foo"⟩] ⟨0, "Bar"⟩ "" none
    ⟨1, "Foo"⟩ ⟨2, "Foo"⟩ (by decide) (by decide) (by decide) (by decide) (by decide)

end SwiftModel
